import Mathlib

/-!
Verification of `snorkel/preprocess/core.py`.

The file shallowly embeds the `preprocessor` decorator class of
`snorkel.preprocess.core`, whose only real logic is the overridden
`__call__` (memoized, deep-copy-isolated, chained transform application)
and `__repr__`, plus the pure marker subclasses `Preprocessor` and
`LambdaPreprocessor`.

Modelling choices:

* Data points are heap objects.  The heap is a `List DP` and an object
  reference (a Python object identity) is an index into that list.
  `copy.deepcopy` is modelled as allocation of a fresh index holding the
  same value (a deep copy preserves the value but yields a new object).
* The pre-step mappers (`self._pre`) and the core mapping hook
  (`self._generate_mapped_data_point`) are value-level functions supplied
  as parameters: they are hooks of the external `Mapper` base class and
  arbitrary user code.  A pre-step maps a data point value to a data
  point value; the core hook may return `none` (Python `None`, "drop this
  data point").  Transformation results are written in place at the
  address of the working copy, so the reference returned on a cache miss
  is the address of the deep copy.
* The memoization cache `self._cache` is an association list from keys to
  `Option Nat`: a stored value is an object reference or Python `None`.
  `k in cache` / `cache[k]` / `cache[k] = v` become lookup / lookup /
  cons on that list.
* Python exceptions are modelled in a second translation of the same
  method, `callE`, where the key function, the deep copy, each pre-step
  and the core hook return `Except E _` and evaluation short-circuits
  exactly where Python would propagate the exception.
-/

namespace Snorkel

/-- Association-list lookup modelling Python `dict` membership and
indexing (`k in d` is `(cacheLookup d k).isSome`; `d[k]` is the looked-up
value). -/
def cacheLookup {K V : Type} [DecidableEq K] : List (K × V) → K → Option V
  | [], _ => none
  | (k', v) :: rest, k => if k' = k then some v else cacheLookup rest k

/-- State owned by one `preprocessor` instance together with the Python
heap: `heap` holds every allocated data-point object (an object reference
is an index), `cache` is the instance's `self._cache`. -/
structure PState (DP K : Type) where
  heap : List DP
  cache : List (K × Option Nat)

variable {DP K E : Type}

/-- Dereference an object: the value stored at address `a`. -/
def readObj [Inhabited DP] (s : PState DP K) (a : Nat) : DP :=
  s.heap.getD a default

/-- `for mapper in self._pre: x_mapped = mapper(x_mapped)` — the ordered
fold of the pre-steps over the working value. -/
def applyPre (pre : List (DP → DP)) (x : DP) : DP :=
  pre.foldl (fun acc f => f acc) x

/-- The cache-miss body of `preprocessor.__call__`: deep-copy `x` (fresh
allocation of its value), run the pre-steps and then
`_generate_mapped_data_point` in place on the copy.  Returns the result
reference (`none` models returning Python `None`) and the new heap. -/
def computeMapped [Inhabited DP] (pre : List (DP → DP)) (gen : DP → Option DP)
    (s : PState DP K) (a : Nat) : Option Nat × List DP :=
  let a' := s.heap.length
  let h := s.heap ++ [readObj s a]
  let v := applyPre pre (readObj s a)
  match gen v with
  | none => (none, h.set a' v)
  | some w => (some a', h.set a' w)

/-- `preprocessor.__call__` from `snorkel/preprocess/core.py`:
if `memoize`, derive the hashable key and return the cached value on a
hit (distinguishing a key present with value `None` from an absent key);
otherwise deep-copy, chain the pre-steps, apply the core mapping hook,
and store the result under the key when memoizing. -/
def call [Inhabited DP] [DecidableEq K] (memoize : Bool) (mkey : DP → K)
    (pre : List (DP → DP)) (gen : DP → Option DP)
    (s : PState DP K) (a : Nat) : Option Nat × PState DP K :=
  if memoize then
    let k := mkey (readObj s a)
    match cacheLookup s.cache k with
    | some v => (v, s)
    | none =>
      let p := computeMapped pre gen s a
      (p.1, ⟨p.2, (k, p.1) :: s.cache⟩)
  else
    let p := computeMapped pre gen s a
    (p.1, ⟨p.2, s.cache⟩)

/-- Read a returned reference back as an optional data-point value in the
final state. -/
def resultVal [Inhabited DP] (h : List DP) (r : Option Nat) : Option DP :=
  r.map (fun a => h.getD a default)

end Snorkel

namespace Snorkel

/-- Sequential pre-step chaining with exceptions: each step consumes the
previous step's output, the first raised exception aborts the chain. -/
def applyPreE (pre : List (DP → Except E DP)) (x : DP) : Except E DP :=
  pre.foldl (fun acc f => acc.bind f) (Except.ok x)

/-- The cache-miss body of `__call__` with exception propagation:
`copy.deepcopy`, each pre-step and `_generate_mapped_data_point` may
raise; the first exception propagates and later steps do not run. -/
def computeMappedE [Inhabited DP] (copyE : DP → Except E DP)
    (preE : List (DP → Except E DP)) (genE : DP → Except E (Option DP))
    (s : PState DP K) (a : Nat) : Except E (Option Nat) × List DP :=
  match copyE (readObj s a) with
  | Except.error e => (Except.error e, s.heap)
  | Except.ok c =>
    let a' := s.heap.length
    let h := s.heap ++ [c]
    match applyPreE preE c with
    | Except.error e => (Except.error e, h)
    | Except.ok v =>
      match genE v with
      | Except.error e => (Except.error e, h.set a' v)
      | Except.ok none => (Except.ok none, h.set a' v)
      | Except.ok (some w) => (Except.ok (some a'), h.set a' w)

/-- `preprocessor.__call__` with exception propagation: the key
derivation, the deep copy, any pre-step or the core hook may raise, and
the exception propagates to the caller uncaught; the cache store only
happens after the whole computation succeeded. -/
def callE [Inhabited DP] [DecidableEq K] (memoize : Bool)
    (mkeyE : DP → Except E K) (copyE : DP → Except E DP)
    (preE : List (DP → Except E DP)) (genE : DP → Except E (Option DP))
    (s : PState DP K) (a : Nat) : Except E (Option Nat) × PState DP K :=
  if memoize then
    match mkeyE (readObj s a) with
    | Except.error e => (Except.error e, s)
    | Except.ok k =>
      match cacheLookup s.cache k with
      | some v => (Except.ok v, s)
      | none =>
        let p := computeMappedE copyE preE genE s a
        match p.1 with
        | Except.error e => (Except.error e, ⟨p.2, s.cache⟩)
        | Except.ok r => (Except.ok r, ⟨p.2, (k, r) :: s.cache⟩)
  else
    let p := computeMappedE copyE preE genE s a
    (p.1, ⟨p.2, s.cache⟩)

/-- Python `repr` of a list, as interpolated for the pre-steps segment
of the representation string. -/
def pyListRepr (xs : List String) : String :=
  "[" ++ String.intercalate ", " xs ++ "]"

/-- `preprocessor.__repr__`: the class name, a space, the configured
name, and the pre-steps segment `, Pre: ` followed by the rendered list
of pre-steps. -/
def preprocessorRepr (className name : String) (preSteps : List String) : String :=
  let preStr := ", Pre: " ++ pyListRepr preSteps
  className ++ " " ++ name ++ preStr

/-- The class body of `Preprocessor` is `pass`: it overrides nothing. -/
def preprocessorClassDict {M : Type} : List (String × M) := []

/-- The class body of `LambdaPreprocessor` is `pass`: it overrides
nothing. -/
def lambdaPreprocessorClassDict {M : Type} : List (String × M) := []

/-- The attributes the `preprocessor` decorator class itself defines
(its class body holds exactly the two methods `__call__` and
`__repr__`): it overrides neither `__eq__` nor `__hash__`, so its string
representation plays no role in equality or hashing. -/
def preprocessorDecoratorMethods : List String :=
  ["__call__", "__repr__"]

/-- Python attribute resolution for a single-inheritance subclass: use the
subclass's own dict when it defines the attribute, else fall back to the
base class. -/
def resolveAttr {M : Type} (subclassDict : List (String × M))
    (base : String → M) (attr : String) : M :=
  match cacheLookup subclassDict attr with
  | some m => m
  | none => base attr

end Snorkel

namespace Snorkel

variable {DP K E : Type}

theorem set_append_length {α : Type} (l : List α) (x v : α) :
    (l ++ [x]).set l.length v = l ++ [v] := by
  induction l with
  | nil => rfl
  | cons a t ih => simp [List.set, ih]

theorem getD_concat_length {α : Type} (l : List α) (w d : α) :
    (l ++ [w]).getD l.length d = w := by
  rw [List.getD_append_right _ _ _ _ (le_refl _)]
  simp

theorem computeMapped_eq [Inhabited DP] (pre : List (DP → DP)) (gen : DP → Option DP)
    (s : PState DP K) (a : Nat) :
    computeMapped pre gen s a =
      match gen (applyPre pre (readObj s a)) with
      | none => (none, s.heap ++ [applyPre pre (readObj s a)])
      | some w => (some s.heap.length, s.heap ++ [w]) := by
  cases hg : gen (applyPre pre (readObj s a)) with
  | none => simp [computeMapped, hg, set_append_length]
  | some w => simp [computeMapped, hg, set_append_length]

theorem computeMapped_heap_extends [Inhabited DP] (pre : List (DP → DP))
    (gen : DP → Option DP) (s : PState DP K) (a : Nat) :
    ∃ w, (computeMapped pre gen s a).2 = s.heap ++ [w] := by
  rw [computeMapped_eq]
  cases gen (applyPre pre (readObj s a)) <;> exact ⟨_, rfl⟩

theorem computeMapped_fst_cases [Inhabited DP] (pre : List (DP → DP))
    (gen : DP → Option DP) (s : PState DP K) (a : Nat) :
    (computeMapped pre gen s a).1 = none ∨
      (computeMapped pre gen s a).1 = some s.heap.length := by
  rw [computeMapped_eq]
  cases gen (applyPre pre (readObj s a))
  · exact Or.inl rfl
  · exact Or.inr rfl

theorem resultVal_computeMapped [Inhabited DP] (pre : List (DP → DP))
    (gen : DP → Option DP) (s : PState DP K) (a : Nat) :
    resultVal (computeMapped pre gen s a).2 (computeMapped pre gen s a).1 =
      gen (applyPre pre (readObj s a)) := by
  rw [computeMapped_eq]
  cases hg : gen (applyPre pre (readObj s a)) with
  | none => rfl
  | some w => simp [resultVal, getD_concat_length]

theorem call_hit [Inhabited DP] [DecidableEq K] (mkey : DP → K)
    (pre : List (DP → DP)) (gen : DP → Option DP) (s : PState DP K) (a : Nat)
    (v : Option Nat) (h : cacheLookup s.cache (mkey (readObj s a)) = some v) :
    call true mkey pre gen s a = (v, s) := by
  simp [call, h]

theorem call_miss [Inhabited DP] [DecidableEq K] (mkey : DP → K)
    (pre : List (DP → DP)) (gen : DP → Option DP) (s : PState DP K) (a : Nat)
    (h : cacheLookup s.cache (mkey (readObj s a)) = none) :
    call true mkey pre gen s a =
      ((computeMapped pre gen s a).1,
        ⟨(computeMapped pre gen s a).2,
          (mkey (readObj s a), (computeMapped pre gen s a).1) :: s.cache⟩) := by
  simp [call, h]

theorem call_false_eq [Inhabited DP] [DecidableEq K] (mkey : DP → K)
    (pre : List (DP → DP)) (gen : DP → Option DP) (s : PState DP K) (a : Nat) :
    call false mkey pre gen s a =
      ((computeMapped pre gen s a).1, ⟨(computeMapped pre gen s a).2, s.cache⟩) := by
  simp [call]

theorem call_heap_extends [Inhabited DP] [DecidableEq K] (memoize : Bool)
    (mkey : DP → K) (pre : List (DP → DP)) (gen : DP → Option DP)
    (s : PState DP K) (a : Nat) :
    ∃ t, (call memoize mkey pre gen s a).2.heap = s.heap ++ t := by
  cases memoize with
  | false =>
    rw [call_false_eq]
    obtain ⟨w, hw⟩ := computeMapped_heap_extends pre gen s a
    exact ⟨[w], hw⟩
  | true =>
    cases h : cacheLookup s.cache (mkey (readObj s a)) with
    | none =>
      rw [call_miss mkey pre gen s a h]
      obtain ⟨w, hw⟩ := computeMapped_heap_extends pre gen s a
      exact ⟨[w], hw⟩
    | some v =>
      rw [call_hit mkey pre gen s a v h]
      exact ⟨[], by simp⟩

theorem readObj_call [Inhabited DP] [DecidableEq K] (memoize : Bool)
    (mkey : DP → K) (pre : List (DP → DP)) (gen : DP → Option DP)
    (s : PState DP K) (a b : Nat) (hb : b < s.heap.length) :
    readObj (call memoize mkey pre gen s a).2 b = readObj s b := by
  obtain ⟨t, ht⟩ := call_heap_extends memoize mkey pre gen s a
  unfold readObj
  rw [ht, List.getD_append _ _ _ _ hb]

theorem call_memoize_stores [Inhabited DP] [DecidableEq K] (mkey : DP → K)
    (pre : List (DP → DP)) (gen : DP → Option DP) (s : PState DP K) (a : Nat) :
    cacheLookup (call true mkey pre gen s a).2.cache (mkey (readObj s a)) =
      some (call true mkey pre gen s a).1 := by
  cases h : cacheLookup s.cache (mkey (readObj s a)) with
  | none => rw [call_miss mkey pre gen s a h]; simp [cacheLookup]
  | some v => rw [call_hit mkey pre gen s a v h]; simp [h]

end Snorkel

namespace Snorkel

variable {DP K E : Type}

theorem cacheLookup_cons_preserve [DecidableEq K] {V : Type} (cch : List (K × V))
    (k0 k : K) (r v : V) (hl : cacheLookup cch k0 = none)
    (h : cacheLookup cch k = some v) :
    cacheLookup ((k0, r) :: cch) k = some v := by
  by_cases hk : k0 = k
  · subst hk; rw [hl] at h; exact absurd h (by simp)
  · simp [cacheLookup, hk, h]

theorem callE_false_eq [Inhabited DP] [DecidableEq K] (mkeyE : DP → Except E K)
    (copyE : DP → Except E DP) (preE : List (DP → Except E DP))
    (genE : DP → Except E (Option DP)) (s : PState DP K) (a : Nat) :
    callE false mkeyE copyE preE genE s a =
      ((computeMappedE copyE preE genE s a).1,
        ⟨(computeMappedE copyE preE genE s a).2, s.cache⟩) := by
  simp [callE]

theorem callE_true_keyerror [Inhabited DP] [DecidableEq K] (mkeyE : DP → Except E K)
    (copyE : DP → Except E DP) (preE : List (DP → Except E DP))
    (genE : DP → Except E (Option DP)) (s : PState DP K) (a : Nat) (e : E)
    (hk : mkeyE (readObj s a) = Except.error e) :
    callE true mkeyE copyE preE genE s a = (Except.error e, s) := by
  simp [callE, hk]

theorem computeMappedE_copy_error [Inhabited DP] (copyE : DP → Except E DP)
    (preE : List (DP → Except E DP)) (genE : DP → Except E (Option DP))
    (s : PState DP K) (a : Nat) (e : E)
    (hc : copyE (readObj s a) = Except.error e) :
    (computeMappedE copyE preE genE s a).1 = Except.error e := by
  simp [computeMappedE, hc]

theorem computeMappedE_pre_error [Inhabited DP] (copyE : DP → Except E DP)
    (preE : List (DP → Except E DP)) (genE : DP → Except E (Option DP))
    (s : PState DP K) (a : Nat) (e : E) (c : DP)
    (hc : copyE (readObj s a) = Except.ok c)
    (hp : applyPreE preE c = Except.error e) :
    (computeMappedE copyE preE genE s a).1 = Except.error e := by
  simp [computeMappedE, hc, hp]

theorem computeMappedE_gen_error [Inhabited DP] (copyE : DP → Except E DP)
    (preE : List (DP → Except E DP)) (genE : DP → Except E (Option DP))
    (s : PState DP K) (a : Nat) (e : E) (c v : DP)
    (hc : copyE (readObj s a) = Except.ok c)
    (hp : applyPreE preE c = Except.ok v)
    (hg : genE v = Except.error e) :
    (computeMappedE copyE preE genE s a).1 = Except.error e := by
  simp [computeMappedE, hc, hp, hg]

theorem callE_error_cache_unchanged [Inhabited DP] [DecidableEq K] (memoize : Bool)
    (mkeyE : DP → Except E K) (copyE : DP → Except E DP)
    (preE : List (DP → Except E DP)) (genE : DP → Except E (Option DP))
    (s : PState DP K) (a : Nat) (e : E)
    (herr : (callE memoize mkeyE copyE preE genE s a).1 = Except.error e) :
    (callE memoize mkeyE copyE preE genE s a).2.cache = s.cache := by
  cases memoize with
  | false => rw [callE_false_eq]
  | true =>
    cases hk : mkeyE (readObj s a) with
    | error e' => simp [callE, hk]
    | ok k =>
      cases hl : cacheLookup s.cache k with
      | some v => simp [callE, hk, hl]
      | none =>
        cases hp : (computeMappedE copyE preE genE s a).1 with
        | error e' => simp [callE, hk, hl, hp]
        | ok r => simp [callE, hk, hl, hp] at herr

theorem callE_true_miss_fst [Inhabited DP] [DecidableEq K] (mkeyE : DP → Except E K)
    (copyE : DP → Except E DP) (preE : List (DP → Except E DP))
    (genE : DP → Except E (Option DP)) (s : PState DP K) (a : Nat) (k : K)
    (hk : mkeyE (readObj s a) = Except.ok k)
    (hl : cacheLookup s.cache k = none) :
    (callE true mkeyE copyE preE genE s a).1 =
      (computeMappedE copyE preE genE s a).1 := by
  cases hp : (computeMappedE copyE preE genE s a).1 with
  | error e => simp [callE, hk, hl, hp]
  | ok r => simp [callE, hk, hl, hp]

end Snorkel

namespace Snorkel

variable {DP K E : Type}

/-- C1: with memoization enabled, if the memoization key derived from the
input is present in the cache, the call returns the cached value
immediately with the state untouched — also when the cached value is
Python `None` (`v = none`): the lookup tests key presence, not
truthiness, so "present with value None" is distinguished from
"absent". -/
theorem cache_hit_returns_cached [Inhabited DP] [DecidableEq K]
    (mkey : DP → K) (pre : List (DP → DP)) (gen : DP → Option DP)
    (s : PState DP K) (a : Nat) (v : Option Nat)
    (h : cacheLookup s.cache (mkey (readObj s a)) = some v) :
    call true mkey pre gen s a = (v, s) :=
  call_hit mkey pre gen s a v h

theorem cache_hit_returns_cached_witness :
    cacheLookup (K := Nat) [(5, (none : Option Nat))] 5 = some none ∧
    call true (fun x : Nat => x) [fun x => x + 1] (fun x => some x)
        (⟨[5], [(5, none)]⟩ : PState Nat Nat) 0 =
      (none, (⟨[5], [(5, none)]⟩ : PState Nat Nat)) :=
  ⟨by decide, cache_hit_returns_cached _ _ _ _ _ _ (by decide)⟩

/-- C2: on a cache miss or with memoization disabled, the value of the
returned data point is the core mapping function applied after the
pre-steps in list order on the (deep copy of the) input: with pre-steps
`[f1, f2]` it is `gen (f2 (f1 x))`, and with no pre-steps it is
`gen x`. -/
theorem miss_result_is_composed [Inhabited DP] [DecidableEq K]
    (memoize : Bool) (mkey : DP → K) (pre : List (DP → DP))
    (gen : DP → Option DP) (s : PState DP K) (a : Nat)
    (hmiss : memoize = false ∨
      cacheLookup s.cache (mkey (readObj s a)) = none) :
    (resultVal (call memoize mkey pre gen s a).2.heap
        (call memoize mkey pre gen s a).1 =
      gen (applyPre pre (readObj s a)))
    ∧ (∀ f1 f2 : DP → DP, pre = [f1, f2] →
        resultVal (call memoize mkey pre gen s a).2.heap
            (call memoize mkey pre gen s a).1 =
          gen (f2 (f1 (readObj s a))))
    ∧ (pre = [] →
        resultVal (call memoize mkey pre gen s a).2.heap
            (call memoize mkey pre gen s a).1 =
          gen (readObj s a)) := by
  have hmain : resultVal (call memoize mkey pre gen s a).2.heap
      (call memoize mkey pre gen s a).1 = gen (applyPre pre (readObj s a)) := by
    cases memoize with
    | false => rw [call_false_eq]; exact resultVal_computeMapped pre gen s a
    | true =>
      cases hmiss with
      | inl h => exact absurd h (by simp)
      | inr h => rw [call_miss mkey pre gen s a h]
                 exact resultVal_computeMapped pre gen s a
  refine ⟨hmain, ?_, ?_⟩
  · intro f1 f2 hpre
    subst hpre
    exact hmain
  · intro hpre
    subst hpre
    exact hmain

theorem miss_result_is_composed_witness :
    resultVal
        (call false (fun x : Nat => x) [fun x => x + 1, fun x => x * 2]
            (fun x => some x) (⟨[3], []⟩ : PState Nat Nat) 0).2.heap
        (call false (fun x : Nat => x) [fun x => x + 1, fun x => x * 2]
            (fun x => some x) (⟨[3], []⟩ : PState Nat Nat) 0).1 =
      some ((3 + 1) * 2) :=
  (miss_result_is_composed false _ _ _ _ 0 (Or.inl rfl)).1

/-- C3: a call never mutates the input data point: the object at the
input's address holds the same value after the call, because a full deep
copy is allocated before any transform runs; and with memoization
disabled the returned reference is never the input's own reference. -/
theorem call_does_not_mutate_input [Inhabited DP] [DecidableEq K]
    (memoize : Bool) (mkey : DP → K) (pre : List (DP → DP))
    (gen : DP → Option DP) (s : PState DP K) (a : Nat)
    (ha : a < s.heap.length) :
    readObj (call memoize mkey pre gen s a).2 a = readObj s a ∧
    (memoize = false → (call memoize mkey pre gen s a).1 ≠ some a) := by
  refine ⟨readObj_call memoize mkey pre gen s a a ha, ?_⟩
  intro hm
  subst hm
  rw [call_false_eq]
  rcases computeMapped_fst_cases pre gen s a with h | h <;> rw [h]
  · simp
  · intro hc
    injection hc with hc
    omega

theorem call_does_not_mutate_input_witness :
    0 < ([3] : List Nat).length ∧
    (readObj (call false (fun x : Nat => x) [fun x => x + 1] (fun x => some x)
          (⟨[3], []⟩ : PState Nat Nat) 0).2 0 =
        readObj (⟨[3], []⟩ : PState Nat Nat) 0 ∧
      (false = false →
        (call false (fun x : Nat => x) [fun x => x + 1] (fun x => some x)
            (⟨[3], []⟩ : PState Nat Nat) 0).1 ≠ some 0)) :=
  ⟨by decide, call_does_not_mutate_input false _ _ _ _ 0 (by decide)⟩

/-- C4: any exception raised by the key derivation, the deep copy, a
pre-step or the core mapping function propagates to the caller as that
same exception, and the cache is unchanged on every erroring call (no
entry is stored for the input's key).  A key-derivation error aborts a
memoized call with the state untouched; for every call that reaches the
computation — memoization disabled, or a memoized call whose derived key
misses the cache — an error in the copy, in a pre-step or in the core
hook surfaces as that error and leaves the cache exactly as it was. -/
theorem exception_propagates_cache_unchanged [Inhabited DP] [DecidableEq K]
    (memoize : Bool) (mkeyE : DP → Except E K) (copyE : DP → Except E DP)
    (preE : List (DP → Except E DP)) (genE : DP → Except E (Option DP))
    (s : PState DP K) (a : Nat) (k : K) (e : E) (c v : DP) :
    ((callE memoize mkeyE copyE preE genE s a).1 = Except.error e →
      (callE memoize mkeyE copyE preE genE s a).2.cache = s.cache)
    ∧ (mkeyE (readObj s a) = Except.error e →
        callE true mkeyE copyE preE genE s a = (Except.error e, s))
    ∧ ((memoize = false ∨
          (mkeyE (readObj s a) = Except.ok k ∧ cacheLookup s.cache k = none)) →
        ((copyE (readObj s a) = Except.error e →
            (callE memoize mkeyE copyE preE genE s a).1 = Except.error e ∧
            (callE memoize mkeyE copyE preE genE s a).2.cache = s.cache)
        ∧ (copyE (readObj s a) = Except.ok c →
            applyPreE preE c = Except.error e →
            (callE memoize mkeyE copyE preE genE s a).1 = Except.error e ∧
            (callE memoize mkeyE copyE preE genE s a).2.cache = s.cache)
        ∧ (copyE (readObj s a) = Except.ok c →
            applyPreE preE c = Except.ok v → genE v = Except.error e →
            (callE memoize mkeyE copyE preE genE s a).1 = Except.error e ∧
            (callE memoize mkeyE copyE preE genE s a).2.cache = s.cache))) := by
  have hcache := callE_error_cache_unchanged memoize mkeyE copyE preE genE s a e
  refine ⟨hcache, callE_true_keyerror mkeyE copyE preE genE s a e, ?_⟩
  intro hcase
  have hfst : (callE memoize mkeyE copyE preE genE s a).1 =
      (computeMappedE copyE preE genE s a).1 := by
    cases memoize with
    | false => rw [callE_false_eq]
    | true =>
      rcases hcase with hm | ⟨hk, hl⟩
      · exact absurd hm (by simp)
      · exact callE_true_miss_fst mkeyE copyE preE genE s a k hk hl
  refine ⟨fun hc => ?_, fun hc hp => ?_, fun hc hp hg => ?_⟩
  · have herr : (callE memoize mkeyE copyE preE genE s a).1 = Except.error e :=
      hfst.trans (computeMappedE_copy_error copyE preE genE s a e hc)
    exact ⟨herr, hcache herr⟩
  · have herr : (callE memoize mkeyE copyE preE genE s a).1 = Except.error e :=
      hfst.trans (computeMappedE_pre_error copyE preE genE s a e c hc hp)
    exact ⟨herr, hcache herr⟩
  · have herr : (callE memoize mkeyE copyE preE genE s a).1 = Except.error e :=
      hfst.trans (computeMappedE_gen_error copyE preE genE s a e c v hc hp hg)
    exact ⟨herr, hcache herr⟩

theorem exception_propagates_cache_unchanged_witness :
    (callE true (fun x : Nat => (Except.ok x : Except String Nat))
        (fun x => Except.ok x) [fun _ => Except.error "boom"]
        (fun x => Except.ok (some x)) (⟨[3], []⟩ : PState Nat Nat) 0).1 =
      Except.error "boom" ∧
    (callE true (fun x : Nat => (Except.ok x : Except String Nat))
        (fun x => Except.ok x) [fun _ => Except.error "boom"]
        (fun x => Except.ok (some x)) (⟨[3], []⟩ : PState Nat Nat) 0).2.cache =
      [] :=
  ((exception_propagates_cache_unchanged true
        (fun x : Nat => (Except.ok x : Except String Nat))
        (fun x => Except.ok x) [fun _ => Except.error "boom"]
        (fun x => Except.ok (some x)) (⟨[3], []⟩ : PState Nat Nat)
        0 3 "boom" 3 3).2.2
      (Or.inr ⟨rfl, rfl⟩)).2.1 rfl rfl

end Snorkel

namespace Snorkel

variable {DP K E : Type}

/-- C5: store-then-lookup round trip — with memoization enabled, calling
the preprocessor again on the same data point (whose projection key is
unchanged, since the heap only grows) returns exactly the value cached by
the first call and leaves the state untouched; the second call's result
does not depend on the pre-steps or core function (`pre'`, `gen'` are
arbitrary), so the copy, pre-steps and core function do not run again. -/
theorem memoized_second_call_returns_cached [Inhabited DP] [DecidableEq K]
    (mkey : DP → K) (pre pre' : List (DP → DP)) (gen gen' : DP → Option DP)
    (s : PState DP K) (a : Nat) (ha : a < s.heap.length) :
    call true mkey pre' gen' (call true mkey pre gen s a).2 a =
      ((call true mkey pre gen s a).1, (call true mkey pre gen s a).2) := by
  have hread : readObj (call true mkey pre gen s a).2 a = readObj s a :=
    readObj_call true mkey pre gen s a a ha
  have hstore := call_memoize_stores mkey pre gen s a
  exact call_hit _ _ _ _ _ _ (by rw [hread]; exact hstore)

theorem memoized_second_call_returns_cached_witness :
    0 < ([7] : List Nat).length ∧
    call true (fun x : Nat => x) [fun x => x + 1] (fun _ => none)
        (call true (fun x : Nat => x) [] (fun x => some x)
          (⟨[7], []⟩ : PState Nat Nat) 0).2 0 =
      ((call true (fun x : Nat => x) [] (fun x => some x)
          (⟨[7], []⟩ : PState Nat Nat) 0).1,
        (call true (fun x : Nat => x) [] (fun x => some x)
          (⟨[7], []⟩ : PState Nat Nat) 0).2) :=
  ⟨by decide, memoized_second_call_returns_cached _ _ _ _ _ _ 0 (by decide)⟩

/-- C6: with memoization disabled the cache is neither read nor written
and the key function is never invoked: the cache component of the final
state is the initial cache, and the returned reference and final heap are
the same whatever the key function and whatever the cache contents. -/
theorem no_memoize_ignores_cache_and_key [Inhabited DP] [DecidableEq K]
    (mkey mkey' : DP → K) (pre : List (DP → DP)) (gen : DP → Option DP)
    (h : List DP) (c c' : List (K × Option Nat)) (a : Nat) :
    (call false mkey pre gen ⟨h, c⟩ a).2.cache = c ∧
    (call false mkey pre gen ⟨h, c⟩ a).1 =
      (call false mkey' pre gen ⟨h, c'⟩ a).1 ∧
    (call false mkey pre gen ⟨h, c⟩ a).2.heap =
      (call false mkey' pre gen ⟨h, c'⟩ a).2.heap := by
  rw [call_false_eq, call_false_eq]
  exact ⟨rfl, rfl, rfl⟩

/-- C7: a call preserves every existing cache entry (no entry is removed
or overwritten — a present key returns early before any store) and adds
at most one new entry, whose key was absent: the cache grows
monotonically. -/
theorem cache_monotone [Inhabited DP] [DecidableEq K]
    (memoize : Bool) (mkey : DP → K) (pre : List (DP → DP))
    (gen : DP → Option DP) (s : PState DP K) (a : Nat) :
    (∀ k v, cacheLookup s.cache k = some v →
        cacheLookup (call memoize mkey pre gen s a).2.cache k = some v)
    ∧ ((call memoize mkey pre gen s a).2.cache = s.cache
        ∨ ∃ k' r, cacheLookup s.cache k' = none
            ∧ (call memoize mkey pre gen s a).2.cache = (k', r) :: s.cache) := by
  cases memoize with
  | false =>
    rw [call_false_eq]
    exact ⟨fun k v hv => hv, Or.inl rfl⟩
  | true =>
    cases hl : cacheLookup s.cache (mkey (readObj s a)) with
    | some v =>
      rw [call_hit mkey pre gen s a v hl]
      exact ⟨fun k v hv => hv, Or.inl rfl⟩
    | none =>
      rw [call_miss mkey pre gen s a hl]
      constructor
      · intro k v hv
        exact cacheLookup_cons_preserve s.cache _ k _ v hl hv
      · exact Or.inr ⟨_, _, hl, rfl⟩

theorem cache_monotone_witness :
    cacheLookup
        (call true (fun x : Nat => x) [] (fun x => some x)
            (⟨[9], [(5, some 0)]⟩ : PState Nat Nat) 0).2.cache 5 =
      some (some 0) :=
  (cache_monotone true _ _ _ _ 0).1 5 (some 0) (by decide)

/-- C8: with memoization enabled, if a second data point's derived key
equals the first one's, the call on the second point returns the value
cached for the first and leaves the state untouched, for arbitrary
pre-steps and core function (`pre'`, `gen'`): after the first call the
result depends only on the key, and nothing runs on the second point. -/
theorem equal_key_returns_first_cached [Inhabited DP] [DecidableEq K]
    (mkey : DP → K) (pre pre' : List (DP → DP)) (gen gen' : DP → Option DP)
    (s : PState DP K) (a1 a2 : Nat)
    (hkey : mkey (readObj (call true mkey pre gen s a1).2 a2) =
      mkey (readObj s a1)) :
    call true mkey pre' gen' (call true mkey pre gen s a1).2 a2 =
      ((call true mkey pre gen s a1).1, (call true mkey pre gen s a1).2) := by
  have hstore := call_memoize_stores mkey pre gen s a1
  exact call_hit _ _ _ _ _ _ (by rw [hkey]; exact hstore)

theorem equal_key_returns_first_cached_witness :
    (fun x : Nat => x / 2)
        (readObj (call true (fun x : Nat => x / 2) [] (fun x => some x)
            (⟨[4, 5], []⟩ : PState Nat Nat) 0).2 1) =
      (fun x : Nat => x / 2) (readObj (⟨[4, 5], []⟩ : PState Nat Nat) 0) ∧
    call true (fun x : Nat => x / 2) [fun x => x * 10] (fun _ => none)
        (call true (fun x : Nat => x / 2) [] (fun x => some x)
          (⟨[4, 5], []⟩ : PState Nat Nat) 0).2 1 =
      ((call true (fun x : Nat => x / 2) [] (fun x => some x)
          (⟨[4, 5], []⟩ : PState Nat Nat) 0).1,
        (call true (fun x : Nat => x / 2) [] (fun x => some x)
          (⟨[4, 5], []⟩ : PState Nat Nat) 0).2) :=
  ⟨by decide, equal_key_returns_first_cached _ _ _ _ _ _ 0 1 (by decide)⟩

end Snorkel

namespace Snorkel

theorem pyListRepr_nil : pyListRepr [] = "[]" := rfl

/-- C9: the string representation is exactly
`<ClassName> <name>, Pre: <pre-steps>`: it contains the class name, the
configured name and the rendered pre-steps list, the `, Pre: ` segment is
present even for an empty pre-steps list, and the class defines neither
`__eq__` nor `__hash__`, so the representation plays no role in equality
or hashing. -/
theorem repr_contains_class_name_and_pre (className nm : String)
    (preSteps : List String) :
    preprocessorRepr className nm preSteps =
        className ++ " " ++ nm ++ ", Pre: " ++ pyListRepr preSteps
    ∧ (∃ l r, preprocessorRepr className nm preSteps = l ++ className ++ r)
    ∧ (∃ l r, preprocessorRepr className nm preSteps = l ++ nm ++ r)
    ∧ (∃ l r, preprocessorRepr className nm preSteps = l ++ ", Pre: " ++ r)
    ∧ preprocessorRepr className nm [] = className ++ " " ++ nm ++ ", Pre: []"
    ∧ "__eq__" ∉ preprocessorDecoratorMethods
    ∧ "__hash__" ∉ preprocessorDecoratorMethods := by
  refine ⟨?_, ⟨"", " " ++ nm ++ ", Pre: " ++ pyListRepr preSteps, ?_⟩,
    ⟨className ++ " ", ", Pre: " ++ pyListRepr preSteps, ?_⟩,
    ⟨className ++ " " ++ nm, pyListRepr preSteps, ?_⟩, ?_, by decide, by decide⟩
  · simp [preprocessorRepr, String.append_assoc]
  · simp [preprocessorRepr, String.append_assoc, String.empty_append]
  · simp [preprocessorRepr, String.append_assoc]
  · simp [preprocessorRepr, String.append_assoc]
  · rw [preprocessorRepr, pyListRepr_nil]
    simp [String.append_assoc]

/-- C10: the marker subclasses `Preprocessor` and `LambdaPreprocessor`
have `pass` bodies, so Python attribute resolution on them always falls
through to the respective base mapper class: every operation is
observationally that of the base — they are pure type tags. -/
theorem marker_subclasses_add_no_behavior {M : Type} (base : String → M)
    (attr : String) :
    resolveAttr preprocessorClassDict base attr = base attr ∧
    resolveAttr lambdaPreprocessorClassDict base attr = base attr :=
  ⟨rfl, rfl⟩

end Snorkel
